import Mathlib

/-
Shallow embedding of the calendar repository (src/event.rs, src/calendar.rs,
src/calendar_error.rs) in Lean 4.

Modelling conventions:
* chrono::NaiveDate is modelled by `Cal.Date` (proleptic Gregorian civil date,
  unbounded year), with day-count conversion following the standard civil
  calendar algorithms.  chrono's bounded date range (about year +-262143) is
  not modelled; all concrete inputs used below lie far inside chrono's range.
* chrono::NaiveTime is modelled by a second-of-day counter (`Nat`).  Leap
  seconds and sub-second precision are not modelled.
* chrono::NaiveDateTime is modelled by an `Int` counting seconds since the
  epoch 1970-01-01 00:00:00; adding a chrono Duration is integer addition.
* chrono::Duration (the event duration field) is modelled at second
  granularity (`Int`), matching `Event::get_duration` which returns
  `duration.num_seconds()`.
* `DateTime<Local>` timestamps (metadata creation/modification) are opaque
  instants, modelled as `Int`.
* A Rust panic (a failing `unwrap`) is modelled by `Option.none`: a function
  that can panic returns `Option _`, and `none` means the call aborts.
* std HashMap<u64, Event> keyed by DefaultHasher output is modelled as an
  association list keyed by the exact stream of field data that
  `#[derive(Hash)]` feeds to the hasher (`fingerprint` below); DefaultHasher
  is idealised as an injective function of that stream (collision-free
  hashing).  HashMap iteration order is the list order; no claim below
  depends on the iteration order.
-/

namespace Cal

/-- True when year y is a leap year in the proleptic Gregorian calendar. -/
def isLeap (y : Int) : Bool :=
  y % 4 == 0 && (y % 100 != 0 || y % 400 == 0)

/-- Number of days in month m (1..12) of year y. -/
def daysInMonth (y : Int) (m : Nat) : Nat :=
  match m with
  | 1 => 31
  | 2 => if isLeap y then 29 else 28
  | 3 => 31
  | 4 => 30
  | 5 => 31
  | 6 => 30
  | 7 => 31
  | 8 => 31
  | 9 => 30
  | 10 => 31
  | 11 => 30
  | _ => 31

/-- Civil date: model of chrono::NaiveDate. -/
structure Date where
  year : Int
  month : Nat
  day : Nat
deriving DecidableEq, Repr

/-- Days since 1970-01-01 of a civil date (standard civil-calendar algorithm). -/
def Date.toDays (d : Date) : Int :=
  let y : Int := if d.month ≤ 2 then d.year - 1 else d.year
  let era : Int := Int.fdiv y 400
  let yoe : Int := y - era * 400
  let mp : Int := (Int.ofNat d.month + 9) % 12
  let doy : Int := (153 * mp + 2) / 5 + Int.ofNat d.day - 1
  let doe : Int := yoe * 365 + yoe / 4 - yoe / 100 + doy
  era * 146097 + doe - 719468

/-- Civil date from a count of days since 1970-01-01 (inverse of Date.toDays). -/
def dateOfDays (z0 : Int) : Date :=
  let z : Int := z0 + 719468
  let era : Int := Int.fdiv z 146097
  let doe : Int := z - era * 146097
  let yoe : Int := (doe - doe / 1460 + doe / 36524 - doe / 146096) / 365
  let y : Int := yoe + era * 400
  let doy : Int := doe - (365 * yoe + yoe / 4 - yoe / 100)
  let mp : Int := (5 * doy + 2) / 153
  let dd : Int := doy - (153 * mp + 2) / 5 + 1
  let m : Int := if mp < 10 then mp + 3 else mp - 9
  ⟨(if m ≤ 2 then y + 1 else y), m.toNat, dd.toNat⟩

/-- Hour component of a second-of-day counter. -/
def timeHour (t : Nat) : Nat := t / 3600

/-- Minute component of a second-of-day counter. -/
def timeMinute (t : Nat) : Nat := t % 3600 / 60

/-- Second component of a second-of-day counter. -/
def timeSecond (t : Nat) : Nat := t % 60

/-- Second-of-day from hour, minute, second. -/
def mkTime (h m s : Nat) : Nat := h * 3600 + m * 60 + s

/-- Model of NaiveTime::from_hms_opt. -/
def fromHmsOpt (h m s : Nat) : Option Nat :=
  if h ≤ 23 ∧ m ≤ 59 ∧ s ≤ 59 then some (mkTime h m s) else none

/-- Model of NaiveDate::from_ymd_opt. -/
def fromYmdOpt (y : Int) (m d : Nat) : Option Date :=
  if 1 ≤ m ∧ m ≤ 12 ∧ 1 ≤ d ∧ d ≤ daysInMonth y m then some ⟨y, m, d⟩ else none

/-- NaiveDateTime as seconds since the epoch, from a date and a second-of-day. -/
def mkDT (d : Date) (t : Nat) : Int := d.toDays * 86400 + Int.ofNat t

/-- Date component of an epoch-seconds datetime. -/
def dtDate (x : Int) : Date := dateOfDays (Int.fdiv x 86400)

/-- Second-of-day component of an epoch-seconds datetime. -/
def dtTime (x : Int) : Nat := (Int.fmod x 86400).toNat

/-- Model of chrono NaiveDate + Months::new(n): advances n calendar months,
clamping the day to the last valid day of the target month. -/
def addMonthsClamped (d : Date) (n : Nat) : Date :=
  let mm : Int := Int.ofNat d.month - 1 + Int.ofNat n
  let y2 : Int := d.year + Int.fdiv mm 12
  let m2 : Nat := (Int.fmod mm 12).toNat + 1
  ⟨y2, m2, min d.day (daysInMonth y2 m2)⟩

/-- Model of chrono with_month: keeps year and day, returns none when the
month is out of range or the day does not exist in the target month. -/
def withMonth (d : Date) (m : Nat) : Option Date :=
  if 1 ≤ m ∧ m ≤ 12 ∧ d.day ≤ daysInMonth d.year m then some ⟨d.year, m, d.day⟩
  else none

/-- Model of chrono with_year: keeps month and day, returns none when the day
does not exist in that month of the target year (Feb 29 of a non-leap year). -/
def withYear (d : Date) (y : Int) : Option Date :=
  if d.day ≤ daysInMonth y d.month then some ⟨y, d.month, d.day⟩ else none

/-- ISO weekday of a date, Monday = 1 .. Sunday = 7 (1970-01-01 was a Thursday). -/
def isoWeekday (d : Date) : Int := Int.fmod (d.toDays + 3) 7 + 1

/-- Ordinal day-of-year of a date (Jan 1 = 1). -/
def ordinalOf (d : Date) : Int := d.toDays - Date.toDays ⟨d.year, 1, 1⟩ + 1

/-- Auxiliary weekday-style function used by the ISO 53-week-year rule. -/
def isoP (y : Int) : Int :=
  Int.fmod (y + Int.fdiv y 4 - Int.fdiv y 100 + Int.fdiv y 400) 7

/-- Number of ISO weeks (52 or 53) in an ISO week-based year. -/
def weeksInIsoYear (y : Int) : Int :=
  52 + (if isoP y = 4 ∨ isoP (y - 1) = 3 then 1 else 0)

/-- ISO week of a date, as the pair (ISO week-based year, week number):
model of chrono NaiveDate::iso_week (which compares both components). -/
def isoWeekOf (d : Date) : Int × Int :=
  let w : Int := Int.fdiv (ordinalOf d - isoWeekday d + 10) 7
  if w < 1 then (d.year - 1, weeksInIsoYear (d.year - 1))
  else if w > weeksInIsoYear d.year then (d.year + 1, 1)
  else (d.year, w)

example : Date.toDays ⟨1970, 1, 1⟩ = 0 := by decide
example : Date.toDays ⟨2024, 1, 31⟩ = 19753 := by decide
example : dateOfDays 19753 = ⟨2024, 1, 31⟩ := by decide
example : dateOfDays (-1) = ⟨1969, 12, 31⟩ := by decide
example : Date.toDays ⟨2024, 3, 1⟩ - Date.toDays ⟨2024, 2, 29⟩ = 1 := by decide
example : isoWeekOf ⟨2023, 1, 1⟩ = (2022, 52) := by decide
example : isoWeekOf ⟨2024, 12, 30⟩ = (2025, 1) := by decide
example : isoWeekOf ⟨2020, 12, 31⟩ = (2020, 53) := by decide
example : addMonthsClamped ⟨2024, 1, 31⟩ 1 = ⟨2024, 2, 29⟩ := by decide
example : addMonthsClamped ⟨2024, 11, 30⟩ 2 = ⟨2025, 1, 30⟩ := by decide

/-- Cadence of a recurrence (src/event.rs). -/
inductive Cadence where
  | Secondly
  | Minutely
  | Hourly
  | Daily
  | Weekly
  | Monthly
  | Yearly
deriving DecidableEq, Repr

/-- Recurrence rule (src/event.rs). -/
structure Recurrence where
  cadence : Cadence
  repetitions : Nat
  interval : Option Nat
deriving DecidableEq, Repr

/-- Event metadata (src/event.rs): tags plus creation and modification
timestamps (opaque instants). -/
structure EventMetadata where
  tags : List String
  creation : Int
  modification : Int
deriving DecidableEq, Repr

/-- An Event (src/event.rs), field for field.  start_time is a second-of-day
and duration is in seconds (Event::get_duration returns whole seconds). -/
structure Event where
  title : String
  description : String
  start_date : Date
  start_time : Nat
  duration : Int
  location : String
  recurrence : Option Recurrence
  metadata : EventMetadata
deriving DecidableEq, Repr

/-- Byte stream a Rust String feeds to a Hasher: its bytes then a 0xff
terminator (written as -1 here to keep the encoding prefix-free). -/
def strBytes (s : String) : List Int :=
  (s.data.map (fun c => Int.ofNat c.toNat)) ++ [-1]

/-- Discriminant of a Cadence, as fed to the hasher by derive(Hash). -/
def cadenceIdx : Cadence → Int
  | .Secondly => 0
  | .Minutely => 1
  | .Hourly => 2
  | .Daily => 3
  | .Weekly => 4
  | .Monthly => 5
  | .Yearly => 6

/-- Hash stream of an Option Nat (discriminant, then payload). -/
def optNatBytes : Option Nat → List Int
  | none => [0]
  | some n => [1, Int.ofNat n]

/-- Hash stream of an optional Recurrence (discriminant, then fields in
declaration order). -/
def recurrenceBytes : Option Recurrence → List Int
  | none => [0]
  | some r => [1, cadenceIdx r.cadence, Int.ofNat r.repetitions] ++ optNatBytes r.interval

/-- Hash stream of a Date. -/
def dateBytes (d : Date) : List Int := [d.year, Int.ofNat d.month, Int.ofNat d.day]

/-- Hash stream of a Vec of Strings: length, then each element. -/
def tagsBytes (ts : List String) : List Int :=
  Int.ofNat ts.length :: (ts.map strBytes).flatten

/-- Hash stream of EventMetadata: tags, creation, modification, in
declaration order — derive(Hash) on EventMetadata feeds all three. -/
def metadataBytes (m : EventMetadata) : List Int :=
  tagsBytes m.tags ++ [m.creation, m.modification]

/-- The store key computed in Calendar::add_event: DefaultHasher over the
derived Hash of Event, which feeds every field in declaration order —
including the metadata (tags and both timestamps).  The hasher is idealised
as an injective function of this stream, so the stream itself is the key. -/
def fingerprint (e : Event) : List Int :=
  strBytes e.title ++ strBytes e.description ++ dateBytes e.start_date ++
    [Int.ofNat e.start_time] ++ [e.duration] ++ strBytes e.location ++
    recurrenceBytes e.recurrence ++ metadataBytes e.metadata

/-- Model of event.rs next_occurrence: start and end of the next repetition
of ev under the given cadence, one unit after the event's own occurrence.
The Monthly and Yearly arms use chrono Months addition, which clamps the
day of month, so this function is total. -/
def next_occurrence (ev : Event) (cad : Cadence) : Int × Int :=
  let ev_start := mkDT ev.start_date ev.start_time
  let ev_end := ev_start + ev.duration
  match cad with
  | .Secondly => (ev_start + 1, ev_end + 1)
  | .Minutely => (ev_start + 60, ev_end + 60)
  | .Hourly => (ev_start + 3600, ev_end + 3600)
  | .Daily => (ev_start + 86400, ev_end + 86400)
  | .Weekly => (ev_start + 604800, ev_end + 604800)
  | .Monthly =>
    (mkDT (addMonthsClamped (dtDate ev_start) 1) (dtTime ev_start),
     mkDT (addMonthsClamped (dtDate ev_end) 1) (dtTime ev_end))
  | .Yearly =>
    (mkDT (addMonthsClamped (dtDate ev_start) 12) (dtTime ev_start),
     mkDT (addMonthsClamped (dtDate ev_end) 12) (dtTime ev_end))

/-- Model of the for-loop in Event::overlaps: the loop body recomputes the
same pure check cnt times and returns early on the first success, so it
hits exactly when cnt is positive and the check holds. -/
def checkRepeat (cnt : Nat) (hit : Bool) : Bool :=
  match cnt with
  | 0 => false
  | n + 1 => if hit then true else checkRepeat n hit

/-- Model of Event::overlaps (src/event.rs).  Returns none when the Rust
code panics: the second recurrence block unwraps self.recurrence under a
guard on other's recurrence, which panics when only other is recurring. -/
def overlaps (self other : Event) : Option Bool :=
  let self_start := mkDT self.start_date self.start_time
  let other_start := mkDT other.start_date other.start_time
  let self_end := self_start + self.duration
  let other_end := other_start + other.duration
  if other_start ≤ self_end ∧ other_end ≥ self_start then some true
  else
    let hit1 : Bool :=
      match self.recurrence with
      | some r =>
        let p := next_occurrence self r.cadence
        checkRepeat r.repetitions (decide (other_start ≤ p.1 ∧ other_end ≥ p.2))
      | none => false
    if hit1 then some true
    else
      match other.recurrence with
      | some _ =>
        match self.recurrence with
        | some r =>
          let q := next_occurrence other r.cadence
          some (checkRepeat r.repetitions (decide (q.1 ≤ self_end ∧ q.2 ≥ self_start)))
        | none => none
      | none => some false

/-- Sequencing of a list of fallible results: none as soon as one entry is
none (a panic inside a loop aborts the whole call). -/
def seqOpt {α : Type} : List (Option α) → Option (List α)
  | [] => some []
  | none :: _ => none
  | some a :: rest =>
    match seqOpt rest with
    | some l => some (a :: l)
    | none => none

/-- One iteration of the loop in calendar.rs expand_recurrence: the i-th
occurrence computed from the anchor.  The Monthly arm calls
with_month(month + i) and the Yearly arm with_year(year + i); both unwrap,
so an out-of-range month or an invalid day is a panic (none). -/
def occurrenceAt (r : Recurrence) (dt : Date) (tm : Nat) (i : Nat) : Option (Date × Nat) :=
  let x := mkDT dt tm
  match r.cadence with
  | .Secondly => some (dtDate (x + Int.ofNat i), dtTime (x + Int.ofNat i))
  | .Minutely => some (dtDate (x + Int.ofNat i * 60), dtTime (x + Int.ofNat i * 60))
  | .Hourly => some (dtDate (x + Int.ofNat i * 3600), dtTime (x + Int.ofNat i * 3600))
  | .Daily => some (dtDate (x + Int.ofNat i * 86400), dtTime (x + Int.ofNat i * 86400))
  | .Weekly => some (dtDate (x + Int.ofNat i * 604800), dtTime (x + Int.ofNat i * 604800))
  | .Monthly => (withMonth dt (dt.month + i)).map (fun d2 => (d2, tm))
  | .Yearly => (withYear dt (dt.year + Int.ofNat i)).map (fun d2 => (d2, tm))

/-- Model of calendar.rs expand_recurrence: occurrences for i = 0..=repetitions,
in order; none when some iteration panics.  The interval field of the
recurrence is never read. -/
def expand_recurrence (r : Recurrence) (dt : Date) (tm : Nat) : Option (List (Date × Nat)) :=
  seqOpt ((List.range (r.repetitions + 1)).map (occurrenceAt r dt tm))

/-- Error type of src/calendar_error.rs. -/
inductive CalendarError where
  | CalendarNotFound (s : String)
  | CalendarAlreadyExists (s : String)
  | EventNotFound (eid : List Int)
  | IcsParsingFailed (s : String)
  | Unknown (s : String)
deriving DecidableEq, Repr

/-- The Calendar store (src/calendar.rs): owner, name, and the fingerprint
to Event mapping, modelled as an association list. -/
structure Calendar where
  owner : String
  name : String
  events : List (List Int × Event)
deriving DecidableEq, Repr

/-- First binding of a key in the association list (HashMap get). -/
def lookupFp : List (List Int × Event) → List Int → Option Event
  | [], _ => none
  | p :: rest, fp => if p.1 = fp then some p.2 else lookupFp rest fp

/-- Removal of the first binding of a key (HashMap remove). -/
def eraseFp : List (List Int × Event) → List Int → List (List Int × Event)
  | [], _ => []
  | p :: rest, fp => if p.1 = fp then rest else p :: eraseFp rest fp

/-- HashMap contains_key. -/
def containsFp (l : List (List Int × Event)) (fp : List Int) : Bool :=
  (lookupFp l fp).isSome

/-- The stored events in iteration order (HashMap values). -/
def calValues (cal : Calendar) : List Event := cal.events.map Prod.snd

/-- Model of Calendar::get_size. -/
def get_size (cal : Calendar) : Nat := cal.events.length

/-- Model of Calendar::clear. -/
def clear (cal : Calendar) : Calendar := { cal with events := [] }

/-- Model of Calendar::add_event: hash the event; if the fingerprint is
present, return false without touching the store; otherwise run the overlap
warning loop over every stored event (which can panic, see overlaps) and
insert.  none models a panic inside the warning loop. -/
def add_event (cal : Calendar) (ev : Event) : Option (Bool × Calendar) :=
  let fp := fingerprint ev
  if containsFp cal.events fp then some (false, cal)
  else
    match seqOpt (cal.events.map (fun p => overlaps p.2 ev)) with
    | none => none
    | some _ => some (true, { cal with events := (fp, ev) :: cal.events })

/-- Model of Calendar::remove_event: returns the removed event, or an
EventNotFound error leaving the store untouched. -/
def remove_event (cal : Calendar) (eid : List Int) :
    Except CalendarError Event × Calendar :=
  match lookupFp cal.events eid with
  | some ev => (Except.ok ev, { cal with events := eraseFp cal.events eid })
  | none => (Except.error (CalendarError.EventNotFound eid), cal)

/-- Model of Event::set_start_date: validates (day, month, year) through
from_ymd_opt and leaves the event untouched on failure. -/
def set_start_date (ev : Event) (dmy : Nat × Nat × Int) : Bool × Event :=
  match fromYmdOpt dmy.2.2 dmy.2.1 dmy.1 with
  | some d => (true, { ev with start_date := d })
  | none => (false, ev)

/-- Model of Event::set_start_time: the source passes 0 to from_hms_opt in
place of the seconds argument, discarding hms.2.2. -/
def set_start_time (ev : Event) (hms : Nat × Nat × Nat) : Bool × Event :=
  match fromHmsOpt hms.1 hms.2.1 0 with
  | some t => (true, { ev with start_time := t })
  | none => (false, ev)

/-- Shared body of the projection done in all four query loops of
calendar.rs: clone the stored event, then set_start_date and set_start_time
to the occurrence values. -/
def projectEvent (ev : Event) (occ : Date × Nat) : Event :=
  let ev2 := (set_start_date ev (occ.1.day, occ.1.month, occ.1.year)).2
  (set_start_time ev2 (timeHour occ.2, timeMinute occ.2, timeSecond occ.2)).2

/-- Shared per-event body of the four query loops: a recurring event
contributes a projected copy for every expanded occurrence whose date the
filter keeps (none when the expansion panics); a non-recurring event
contributes itself when its own start date is kept. -/
def eventMatches (keep : Date → Bool) (ev : Event) : Option (List Event) :=
  match ev.recurrence with
  | some r =>
    (expand_recurrence r ev.start_date ev.start_time).map
      (fun occs => (occs.filter (fun o => keep o.1)).map (projectEvent ev))
  | none => some (if keep ev.start_date then [ev] else [])

/-- Insertion of an element into a list sorted by le. -/
def insertLe {α : Type} (le : α → α → Bool) (a : α) : List α → List α
  | [] => [a]
  | b :: rest => if le a b then a :: b :: rest else b :: insertLe le a rest

/-- Insertion sort by le, modelling the sort_unstable_by calls (the claims
below depend only on membership, not on the ordering algorithm). -/
def sortLe {α : Type} (le : α → α → Bool) : List α → List α
  | [] => []
  | a :: rest => insertLe le a (sortLe le rest)

/-- Comparison key of list_events_today: the start time. -/
def timeLe (e1 e2 : Event) : Bool := decide (e1.start_time ≤ e2.start_time)

/-- Comparison of the week, month and between sorts: start date, then
start time. -/
def dateThenTimeLe (e1 e2 : Event) : Bool :=
  decide (e1.start_date.toDays < e2.start_date.toDays ∨
    (e1.start_date.toDays = e2.start_date.toDays ∧ e1.start_time ≤ e2.start_time))

/-- Model of Calendar::list_events_today; the ambient current date
(Local::today) is passed explicitly. -/
def list_events_today (cal : Calendar) (today : Date) : Option (List Event) :=
  (seqOpt ((calValues cal).map (eventMatches (fun d => decide (d = today))))).map
    (fun ls => sortLe timeLe ls.flatten)

/-- Model of Calendar::list_events_week; keeps the dates in the same ISO
week (year and week number) as the ambient current date. -/
def list_events_week (cal : Calendar) (today : Date) : Option (List Event) :=
  (seqOpt ((calValues cal).map
      (eventMatches (fun d => decide (isoWeekOf d = isoWeekOf today))))).map
    (fun ls => sortLe dateThenTimeLe ls.flatten)

/-- Model of Calendar::list_events_month; keeps the dates in the same month
and year as the ambient current date. -/
def list_events_month (cal : Calendar) (today : Date) : Option (List Event) :=
  (seqOpt ((calValues cal).map
      (eventMatches (fun d => decide (d.month = today.month ∧ d.year = today.year))))).map
    (fun ls => sortLe dateThenTimeLe ls.flatten)

/-- Model of Calendar::list_events_between, after its date arguments have
been resolved (absent or unparsable bounds fall back to the extreme
representable dates in the source; here the resolved bounds are taken as
parameters).  Keeps the dates in the inclusive range. -/
def list_events_between (cal : Calendar) (fromD untilD : Date) : Option (List Event) :=
  (seqOpt ((calValues cal).map
      (eventMatches (fun d => decide (d.toDays ≤ untilD.toDays ∧ d.toDays ≥ fromD.toDays))))).map
    (fun ls => sortLe dateThenTimeLe ls.flatten)

/-- Empty metadata used by the concrete instances below. -/
def md0 : EventMetadata := ⟨[], 0, 0⟩

/-- A zero-length event on 2024-01-01 00:00 recurring yearly once. -/
def evYearly : Event :=
  ⟨"A", "", ⟨2024, 1, 1⟩, 0, 0, "", some ⟨Cadence.Yearly, 1, none⟩, md0⟩

/-- A zero-length event on 2024-01-02 00:00 recurring daily once. -/
def evDaily : Event :=
  ⟨"B", "", ⟨2024, 1, 2⟩, 0, 0, "", some ⟨Cadence.Daily, 1, none⟩, md0⟩

/-- A non-recurring one-hour event on 2024-01-01 00:00. -/
def evPlain : Event := ⟨"P", "", ⟨2024, 1, 1⟩, 0, 3600, "", none, md0⟩

/-- A one-hour event on 2024-01-05 00:00 recurring daily once. -/
def evRecFar : Event :=
  ⟨"R", "", ⟨2024, 1, 5⟩, 0, 3600, "", some ⟨Cadence.Daily, 1, none⟩, md0⟩

/-- A zero-length event anchored at 2024-01-01 10:00:30 recurring secondly once. -/
def evSec : Event :=
  ⟨"S", "", ⟨2024, 1, 1⟩, 36030, 0, "", some ⟨Cadence.Secondly, 1, none⟩, md0⟩

/-- A calendar holding only evSec. -/
def calSec : Calendar := ⟨"o", "c", [(fingerprint evSec, evSec)]⟩

/-- A concrete event with a tag. -/
def evT1 : Event := ⟨"t", "d", ⟨2024, 1, 1⟩, 0, 3600, "loc", none, ⟨["x"], 0, 0⟩⟩

/-- The same content as evT1 but created and modified at a later instant. -/
def evT2 : Event := { evT1 with metadata := ⟨["x"], 1, 1⟩ }

/-- A literal copy of evT1, written out field by field. -/
def evT1b : Event := ⟨"t", "d", ⟨2024, 1, 1⟩, 0, 3600, "loc", none, ⟨["x"], 0, 0⟩⟩

/-- A non-recurring one-hour event on 2024-01-03 06:00. -/
def evPlain2 : Event := ⟨"Q", "", ⟨2024, 1, 3⟩, 21600, 3600, "", none, md0⟩

/-- Fixed step, in seconds, of the five fixed-duration cadences; none for
the calendar-arithmetic cadences Monthly and Yearly. -/
def cadenceUnitSeconds : Cadence → Option Int
  | .Secondly => some 1
  | .Minutely => some 60
  | .Hourly => some 3600
  | .Daily => some 86400
  | .Weekly => some 604800
  | .Monthly => none
  | .Yearly => none

/-- Sequencing a list of always-successful computations yields the list of
their results. -/
theorem seqOpt_map_some {α β : Type} (f : α → β) :
    ∀ l : List α, seqOpt (l.map (fun a => some (f a))) = some (l.map f) := by
  intro l
  induction l with
  | nil => rfl
  | cons a rest ih => simp [seqOpt, ih]

/-- C1: the claim that the fingerprint excludes the metadata timestamps is
false: evT1 and evT2 agree on title, description, start date, start time,
duration, location, recurrence and tags, differ only in the
creation/modification timestamps, and get different fingerprints. -/
theorem C1_counterexample :
    evT1.title = evT2.title ∧ evT1.description = evT2.description ∧
    evT1.start_date = evT2.start_date ∧ evT1.start_time = evT2.start_time ∧
    evT1.duration = evT2.duration ∧ evT1.location = evT2.location ∧
    evT1.recurrence = evT2.recurrence ∧ evT1.metadata.tags = evT2.metadata.tags ∧
    evT1.metadata.creation ≠ evT2.metadata.creation ∧
    fingerprint evT1 ≠ fingerprint evT2 := by
  decide

/-- C1 (amended): the fingerprint is a function of all Event fields
including the metadata creation and modification timestamps: two events
that agree on the eight content fields and on both timestamps get the same
fingerprint. -/
theorem C1_fingerprint_of_all_fields (e1 e2 : Event)
    (h1 : e1.title = e2.title) (h2 : e1.description = e2.description)
    (h3 : e1.start_date = e2.start_date) (h4 : e1.start_time = e2.start_time)
    (h5 : e1.duration = e2.duration) (h6 : e1.location = e2.location)
    (h7 : e1.recurrence = e2.recurrence) (h8 : e1.metadata.tags = e2.metadata.tags)
    (h9 : e1.metadata.creation = e2.metadata.creation)
    (h10 : e1.metadata.modification = e2.metadata.modification) :
    fingerprint e1 = fingerprint e2 := by
  unfold fingerprint metadataBytes
  rw [h1, h2, h3, h4, h5, h6, h7, h8, h9, h10]

/-- C1 witness: the amended theorem applied to the pair evT1, evT1b. -/
theorem C1_fingerprint_witness : fingerprint evT1 = fingerprint evT1b :=
  C1_fingerprint_of_all_fields evT1 evT1b rfl rfl rfl rfl rfl rfl rfl rfl rfl rfl

/-- C2: the spec's month-rollover vector expand(Monthly, 2024-01-31T09:00,
repetitions = 1) does not yield a second date clamped to the last day of
February: the code calls with_month(2) on Jan 31 and unwraps the None it
returns, i.e. it panics (modelled as none). -/
theorem C2_monthly_rollover_panics :
    expand_recurrence ⟨Cadence.Monthly, 1, none⟩ ⟨2024, 1, 31⟩ 32400 = none := by
  decide

/-- C3: the claim that the interval multiplier scales the step is false:
with a Secondly cadence, repetitions 1 and interval 2, occurrence 1 is the
anchor plus one second, not the anchor plus two seconds. -/
theorem C3_counterexample :
    expand_recurrence ⟨Cadence.Secondly, 1, some 2⟩ ⟨2024, 1, 1⟩ 0 =
      some [(⟨2024, 1, 1⟩, 0), (⟨2024, 1, 1⟩, 1)] ∧
    ((⟨2024, 1, 1⟩, 1) : Date × Nat) ≠ (⟨2024, 1, 1⟩, 2) := by
  decide

/-- C3 (amended): for the five fixed-duration cadences, occurrence i of the
expansion is the anchor plus i units of the cadence's fixed duration,
computed with full carry (the split of the shifted epoch-seconds value into
date and time); the interval field is ignored, so the step is one unit
regardless of it. -/
theorem C3_fixed_cadence_step (r : Recurrence) (dt : Date) (tm : Nat) (u : Int)
    (hu : cadenceUnitSeconds r.cadence = some u) :
    expand_recurrence r dt tm =
      some ((List.range (r.repetitions + 1)).map
        (fun i => (dtDate (mkDT dt tm + Int.ofNat i * u),
                   dtTime (mkDT dt tm + Int.ofNat i * u)))) := by
  unfold expand_recurrence
  have hstep : (List.range (r.repetitions + 1)).map (occurrenceAt r dt tm) =
      (List.range (r.repetitions + 1)).map
        (fun i => some ((dtDate (mkDT dt tm + Int.ofNat i * u),
                         dtTime (mkDT dt tm + Int.ofNat i * u)))) := by
    apply List.map_congr_left
    intro i _
    cases hc : r.cadence <;> rw [hc] at hu <;> simp [cadenceUnitSeconds] at hu <;>
      subst hu <;> simp [occurrenceAt, hc]
  rw [hstep, seqOpt_map_some]

/-- C3 witness: the amended theorem applied to a Minutely recurrence with
two repetitions anchored at 2024-01-01 10:00:30. -/
theorem C3_fixed_cadence_witness :
    expand_recurrence ⟨Cadence.Minutely, 2, some 5⟩ ⟨2024, 1, 1⟩ 36030 =
      some ((List.range 3).map
        (fun i => (dtDate (mkDT ⟨2024, 1, 1⟩ 36030 + Int.ofNat i * 60),
                   dtTime (mkDT ⟨2024, 1, 1⟩ 36030 + Int.ofNat i * 60)))) :=
  C3_fixed_cadence_step ⟨Cadence.Minutely, 2, some 5⟩ ⟨2024, 1, 1⟩ 36030 60 rfl

/-- C4: overlap symmetry fails: evYearly (2024-01-01, yearly once) and
evDaily (2024-01-02, daily once) overlap in one argument order but not in
the other, because the two recurrence blocks of Event::overlaps apply
different checks and mix the cadences of the two events. -/
theorem C4_counterexample :
    overlaps evYearly evDaily = some false ∧ overlaps evDaily evYearly = some true := by
  decide

/-- C4 (amended): overlaps is symmetric for pairs of non-recurring events:
both calls return the same boolean, computed from the symmetric inclusive
interval check. -/
theorem C4_symm_nonrecurring (a b : Event)
    (ha : a.recurrence = none) (hb : b.recurrence = none) :
    overlaps a b = overlaps b a := by
  have ea : overlaps a b =
      if mkDT b.start_date b.start_time ≤ mkDT a.start_date a.start_time + a.duration ∧
          mkDT b.start_date b.start_time + b.duration ≥ mkDT a.start_date a.start_time then
        some true else some false := by
    unfold overlaps
    rw [ha, hb]
    rfl
  have eb : overlaps b a =
      if mkDT a.start_date a.start_time ≤ mkDT b.start_date b.start_time + b.duration ∧
          mkDT a.start_date a.start_time + a.duration ≥ mkDT b.start_date b.start_time then
        some true else some false := by
    unfold overlaps
    rw [hb, ha]
    rfl
  rw [ea, eb]
  by_cases h : mkDT b.start_date b.start_time ≤ mkDT a.start_date a.start_time + a.duration ∧
      mkDT b.start_date b.start_time + b.duration ≥ mkDT a.start_date a.start_time
  · rw [if_pos h, if_pos (⟨h.2, h.1⟩ : _ ∧ _)]
  · rw [if_neg h, if_neg fun hx => h ⟨hx.2, hx.1⟩]

/-- C4 witness: the amended symmetry applied to the concrete non-recurring
events evPlain and evPlain2. -/
theorem C4_symm_witness : overlaps evPlain evPlain2 = overlaps evPlain2 evPlain :=
  C4_symm_nonrecurring evPlain evPlain2 rfl rfl

/-- C5: the overlap detector is not total: on the non-recurring evPlain
against the recurring evRecFar (no base overlap), the code reaches the
second recurrence block and unwraps self's absent recurrence, i.e. it
panics (modelled as none) exactly when only the second event recurs. -/
theorem C5_overlaps_panics : overlaps evPlain evRecFar = none := by
  decide

/-- C8: for non-recurring events, overlaps returns exactly the inclusive
interval check of the spec: true iff otherStart is at most selfEnd and
otherEnd is at least selfStart, with each end being start plus duration. -/
theorem C8_overlaps_nonrecurring (a b : Event)
    (ha : a.recurrence = none) (hb : b.recurrence = none) :
    overlaps a b = some (decide
      (mkDT b.start_date b.start_time ≤ mkDT a.start_date a.start_time + a.duration ∧
       mkDT b.start_date b.start_time + b.duration ≥ mkDT a.start_date a.start_time)) := by
  unfold overlaps
  rw [ha, hb]
  by_cases h : mkDT b.start_date b.start_time ≤ mkDT a.start_date a.start_time + a.duration ∧
      mkDT b.start_date b.start_time + b.duration ≥ mkDT a.start_date a.start_time
  · simp [h]
  · simp [h]

/-- Looking up a key that is not among the keys of the list gives none. -/
theorem lookupFp_not_mem (l : List (List Int × Event)) (fp : List Int)
    (h : fp ∉ l.map Prod.fst) : lookupFp l fp = none := by
  induction l with
  | nil => rfl
  | cons p rest ih =>
    simp only [List.map_cons, List.mem_cons, not_or] at h
    unfold lookupFp
    rw [if_neg fun he => h.1 he.symm]
    exact ih h.2

/-- After erasing a key from a list with distinct keys, the key is gone. -/
theorem lookupFp_erase_self (l : List (List Int × Event)) (fp : List Int)
    (h : (l.map Prod.fst).Nodup) : lookupFp (eraseFp l fp) fp = none := by
  induction l with
  | nil => rfl
  | cons p rest ih =>
    simp only [List.map_cons, List.nodup_cons] at h
    unfold eraseFp
    by_cases he : p.1 = fp
    · rw [if_pos he]
      exact lookupFp_not_mem rest fp (he ▸ h.1)
    · rw [if_neg he]
      unfold lookupFp
      rw [if_neg he]
      exact ih h.2

/-- Erasing one key leaves the binding of every other key unchanged. -/
theorem lookupFp_erase_ne (l : List (List Int × Event)) (fp fp2 : List Int)
    (h : fp2 ≠ fp) : lookupFp (eraseFp l fp) fp2 = lookupFp l fp2 := by
  induction l with
  | nil => rfl
  | cons p rest ih =>
    unfold eraseFp
    by_cases he : p.1 = fp
    · rw [if_pos he]
      have hne : p.1 ≠ fp2 := fun h2 => h (h2.symm.trans he)
      simp [lookupFp, hne]
    · rw [if_neg he]
      simp only [lookupFp]
      by_cases h2 : p.1 = fp2
      · rw [if_pos h2, if_pos h2]
      · rw [if_neg h2, if_neg h2]
        exact ih

/-- C6: inserting an event whose fingerprint is already a key returns false
and leaves the store untouched (same entries, hence same size); and after a
successful insert of an event, inserting the same event again returns false
and leaves the store unchanged, so the size after the second call equals
the size after the first (one more than before it). -/
theorem C6_duplicate_insert (cal : Calendar) (ev : Event) :
    (containsFp cal.events (fingerprint ev) = true →
      add_event cal ev = some (false, cal)) ∧
    (∀ c2 : Calendar, add_event cal ev = some (true, c2) →
      add_event c2 ev = some (false, c2) ∧ get_size c2 = get_size cal + 1) := by
  constructor
  · intro h
    unfold add_event
    rw [if_pos h]
  · intro c2 h
    unfold add_event at h
    by_cases hc : containsFp cal.events (fingerprint ev) = true
    · rw [if_pos hc] at h
      simp at h
    · rw [if_neg hc] at h
      cases hs : seqOpt (cal.events.map fun p => overlaps p.2 ev) with
      | none =>
        rw [hs] at h
        simp at h
      | some l =>
        rw [hs] at h
        simp only [Option.some.injEq, Prod.mk.injEq, true_and] at h
        have hc2 : containsFp c2.events (fingerprint ev) = true := by
          rw [← h]
          simp [containsFp, lookupFp]
        constructor
        · unfold add_event
          rw [if_pos hc2]
        · rw [← h]
          simp [get_size]

/-- C6 witness: the two parts of the idempotent-insert theorem applied to
the concrete event evT1, starting from the empty calendar. -/
theorem C6_duplicate_insert_witness :
    add_event ⟨"o", "c", [(fingerprint evT1, evT1)]⟩ evT1 =
      some (false, ⟨"o", "c", [(fingerprint evT1, evT1)]⟩) ∧
    get_size (⟨"o", "c", [(fingerprint evT1, evT1)]⟩ : Calendar) =
      get_size (⟨"o", "c", []⟩ : Calendar) + 1 :=
  ⟨((C6_duplicate_insert ⟨"o", "c", [(fingerprint evT1, evT1)]⟩ evT1).1 (by decide)),
   ((C6_duplicate_insert ⟨"o", "c", []⟩ evT1).2
      ⟨"o", "c", [(fingerprint evT1, evT1)]⟩ (by decide)).2⟩

/-- C9: remove_event on a present fingerprint returns the stored event and
deletes exactly that entry (the key is gone, every other key's binding is
untouched), and removing the same fingerprint again fails; on an absent
fingerprint it returns the typed EventNotFound error and leaves the store
unchanged. -/
theorem C9_remove_event (cal : Calendar) (fp : List Int) :
    (lookupFp cal.events fp = none →
      remove_event cal fp = (Except.error (CalendarError.EventNotFound fp), cal)) ∧
    ((cal.events.map Prod.fst).Nodup →
      ∀ ev, lookupFp cal.events fp = some ev →
        remove_event cal fp =
          (Except.ok ev, { cal with events := eraseFp cal.events fp }) ∧
        lookupFp (eraseFp cal.events fp) fp = none ∧
        (∀ fp2, fp2 ≠ fp →
          lookupFp (eraseFp cal.events fp) fp2 = lookupFp cal.events fp2) ∧
        (remove_event (remove_event cal fp).2 fp).1 =
          Except.error (CalendarError.EventNotFound fp)) := by
  constructor
  · intro h
    unfold remove_event
    rw [h]
  · intro hnd ev hev
    have heq : remove_event cal fp =
        (Except.ok ev, { cal with events := eraseFp cal.events fp }) := by
      unfold remove_event
      rw [hev]
    refine ⟨heq, lookupFp_erase_self cal.events fp hnd,
      fun fp2 h2 => lookupFp_erase_ne cal.events fp fp2 h2, ?_⟩
    rw [heq]
    unfold remove_event
    rw [lookupFp_erase_self cal.events fp hnd]

/-- C9 witness: the present and absent cases applied to a concrete
one-event calendar: the first removal returns the event, the second returns
the EventNotFound error. -/
theorem C9_remove_event_witness :
    remove_event ⟨"o", "c", [(fingerprint evT1, evT1)]⟩ (fingerprint evT1) =
      (Except.ok evT1, ⟨"o", "c", []⟩) ∧
    (remove_event
        (remove_event ⟨"o", "c", [(fingerprint evT1, evT1)]⟩ (fingerprint evT1)).2
        (fingerprint evT1)).1 =
      Except.error (CalendarError.EventNotFound (fingerprint evT1)) := by
  have h := (C9_remove_event ⟨"o", "c", [(fingerprint evT1, evT1)]⟩
      (fingerprint evT1)).2 (by simp) evT1 (by decide)
  exact ⟨h.1, h.2.2.2⟩

/-- C7: the expansion does not always return repetitions + 1 occurrences:
a Monthly recurrence with 12 repetitions anchored at 2024-02-15 calls
with_month(13) at iteration 11, unwraps the None it returns and panics
(modelled as none) instead of returning 13 occurrences. -/
theorem C7_expansion_panics :
    expand_recurrence ⟨Cadence.Monthly, 12, none⟩ ⟨2024, 2, 15⟩ 0 = none := by
  decide

/-- The second-of-day component of a datetime is below 86400. -/
theorem dtTime_lt (x : Int) : dtTime x < 86400 := by
  unfold dtTime
  rw [Int.fmod_eq_emod x (by norm_num)]
  have h1 : 0 ≤ x % 86400 := Int.emod_nonneg x (by norm_num)
  have h2 : x % 86400 < 86400 := Int.emod_lt_of_pos x (by norm_num)
  omega

/-- Every element of a successfully sequenced mapped list is the successful
image of some element of the original list. -/
theorem seqOpt_mem {α β : Type} (f : α → Option β) :
    ∀ (l : List α) (ls : List β), seqOpt (l.map f) = some ls →
      ∀ m ∈ ls, ∃ a ∈ l, f a = some m := by
  intro l
  induction l with
  | nil =>
    intro ls h m hm
    simp [seqOpt] at h
    subst h
    simp at hm
  | cons a rest ih =>
    intro ls h m hm
    rw [List.map_cons] at h
    cases hfa : f a with
    | none => rw [hfa] at h; simp [seqOpt] at h
    | some v =>
      rw [hfa] at h
      unfold seqOpt at h
      cases hs : seqOpt (rest.map f) with
      | none => rw [hs] at h; simp at h
      | some ys =>
        rw [hs] at h
        simp only [Option.some.injEq] at h
        subst h
        rcases List.mem_cons.mp hm with hm1 | hm2
        · exact ⟨a, List.mem_cons_self a rest, hm1 ▸ hfa⟩
        · obtain ⟨b, hb, hfb⟩ := ih ys hs m hm2
          exact ⟨b, List.mem_cons_of_mem a hb, hfb⟩

/-- Every occurrence produced by a successful expansion from a valid anchor
time has a valid second-of-day component. -/
theorem expand_times_lt (r : Recurrence) (dt : Date) (tm : Nat)
    (htm : tm < 86400) (occs : List (Date × Nat))
    (h : expand_recurrence r dt tm = some occs) :
    ∀ o ∈ occs, o.2 < 86400 := by
  intro o ho
  obtain ⟨i, _, hoi⟩ := seqOpt_mem (occurrenceAt r dt tm) _ occs h o ho
  cases hc : r.cadence <;> simp only [occurrenceAt, hc] at hoi
  case Secondly | Minutely | Hourly | Daily | Weekly =>
    injection hoi with hoi
    rw [← hoi]
    exact dtTime_lt _
  case Monthly =>
    rcases hw : withMonth dt (dt.month + i) with _ | d2 <;> rw [hw] at hoi
    · simp at hoi
    · simp only [Option.map_some', Option.some.injEq] at hoi
      rw [← hoi]
      exact htm
  case Yearly =>
    rcases hw : withYear dt (dt.year + Int.ofNat i) with _ | d2 <;> rw [hw] at hoi
    · simp at hoi
    · simp only [Option.map_some', Option.some.injEq] at hoi
      rw [← hoi]
      exact htm

/-- set_start_date never touches the start time or the recurrence. -/
theorem set_start_date_keeps (ev : Event) (dmy : Nat × Nat × Int) :
    (set_start_date ev dmy).2.start_time = ev.start_time ∧
    (set_start_date ev dmy).2.recurrence = ev.recurrence := by
  unfold set_start_date
  cases fromYmdOpt dmy.2.2 dmy.2.1 dmy.1 <;> simp

/-- With an in-range hour and minute, set_start_time overwrites the start
time with hour and minute only, zeroing the seconds, and never touches the
recurrence. -/
theorem set_start_time_sets (ev : Event) (hms : Nat × Nat × Nat)
    (hh : hms.1 ≤ 23) (hm : hms.2.1 ≤ 59) :
    (set_start_time ev hms).2.start_time = mkTime hms.1 hms.2.1 0 ∧
    (set_start_time ev hms).2.recurrence = ev.recurrence := by
  unfold set_start_time fromHmsOpt
  rw [if_pos ⟨hh, hm, by omega⟩]
  exact ⟨rfl, rfl⟩

/-- A copy projected onto an occurrence with a valid time has a start time
whose seconds component is zero, and keeps the recurrence of the source. -/
theorem projectEvent_props (ev : Event) (occ : Date × Nat) (h : occ.2 < 86400) :
    timeSecond (projectEvent ev occ).start_time = 0 ∧
    (projectEvent ev occ).recurrence = ev.recurrence := by
  have hh : timeHour occ.2 ≤ 23 := by
    unfold timeHour
    omega
  have hm : timeMinute occ.2 ≤ 59 := by
    unfold timeMinute
    omega
  unfold projectEvent
  have hs := set_start_time_sets ((set_start_date ev (occ.1.day, occ.1.month, occ.1.year)).2)
    (timeHour occ.2, timeMinute occ.2, timeSecond occ.2) hh hm
  have hd := set_start_date_keeps ev (occ.1.day, occ.1.month, occ.1.year)
  refine ⟨?_, hs.2.trans hd.2⟩
  rw [hs.1]
  unfold mkTime timeSecond
  omega

/-- Every member of a per-event match list that still carries a recurrence
is a projected copy, so its start time has a zero seconds component. -/
theorem eventMatches_second (keep : Date → Bool) (ev : Event) (m : List Event)
    (hval : ev.start_time < 86400) (hm : eventMatches keep ev = some m) :
    ∀ e ∈ m, e.recurrence.isSome = true → timeSecond e.start_time = 0 := by
  intro e he hrec
  unfold eventMatches at hm
  cases hr : ev.recurrence with
  | none =>
    rw [hr] at hm
    have hm2 : some (if keep ev.start_date = true then [ev] else []) = some m := hm
    have hm3 := Option.some.inj hm2
    subst hm3
    by_cases hk : keep ev.start_date
    · rw [if_pos hk] at he
      rcases List.mem_singleton.mp he with h1
      rw [h1, hr] at hrec
      simp at hrec
    · rw [if_neg hk] at he
      simp at he
  | some r =>
    rw [hr] at hm
    have hm2 : Option.map
        (fun occs => List.map (projectEvent ev) (List.filter (fun o => keep o.1) occs))
        (expand_recurrence r ev.start_date ev.start_time) = some m := hm
    cases hexp : expand_recurrence r ev.start_date ev.start_time with
    | none => rw [hexp] at hm2; simp at hm2
    | some occs =>
      rw [hexp] at hm2
      simp only [Option.map_some', Option.some.injEq] at hm2
      subst hm2
      obtain ⟨o, ho, hoe⟩ := List.mem_map.mp he
      have ho2 : o.2 < 86400 :=
        expand_times_lt r ev.start_date ev.start_time hval occs hexp o
          (List.mem_of_mem_filter ho)
      rw [← hoe]
      exact (projectEvent_props ev o ho2).1

/-- Store-level version: every event in the flattened query result that
still carries a recurrence has a start time with zero seconds. -/
theorem queryFlatten_second (keep : Date → Bool) (cal : Calendar)
    (ls : List (List Event))
    (hval : ∀ ev ∈ calValues cal, ev.start_time < 86400)
    (h : seqOpt ((calValues cal).map (eventMatches keep)) = some ls) :
    ∀ e ∈ ls.flatten, e.recurrence.isSome = true → timeSecond e.start_time = 0 := by
  intro e he hrec
  rw [List.mem_flatten] at he
  obtain ⟨m, hmls, hem⟩ := he
  obtain ⟨ev, hev, hme⟩ := seqOpt_mem (eventMatches keep) (calValues cal) ls h m hmls
  exact eventMatches_second keep ev m (hval ev hev) hme e hem hrec

/-- Insertion into a sorted list preserves membership. -/
theorem mem_insertLe {α : Type} (le : α → α → Bool) (a x : α) :
    ∀ l : List α, (x ∈ insertLe le a l ↔ x = a ∨ x ∈ l) := by
  intro l
  induction l with
  | nil => simp [insertLe]
  | cons b rest ih =>
    unfold insertLe
    by_cases hle : le a b
    · rw [if_pos hle]
      simp
    · rw [if_neg hle]
      simp only [List.mem_cons, ih]
      tauto

/-- The insertion sort modelling sort_unstable_by preserves membership. -/
theorem mem_sortLe {α : Type} (le : α → α → Bool) (x : α) :
    ∀ l : List α, (x ∈ sortLe le l ↔ x ∈ l) := by
  intro l
  induction l with
  | nil => simp [sortLe]
  | cons a rest ih =>
    unfold sortLe
    rw [mem_insertLe, ih]
    simp

/-- C10: in all four query operations, every projected copy of a recurring
event (recognisable in the output by still carrying the recurrence) has a
start time whose seconds component is zero, because the projection writes
the occurrence time through set_start_time, which discards the seconds
argument; and for a Secondly-cadence event the projected start time differs
from the occurrence computed by the expansion (concrete final conjunct:
the between query on calSec returns copies at 36000s = 10:00:00 while the
expansion's occurrences are at 36030s and 36031s). -/
theorem C10_projection_zeroes_seconds :
    (∀ (cal : Calendar) (today : Date) (l : List Event),
      (∀ ev ∈ calValues cal, ev.start_time < 86400) →
      list_events_today cal today = some l →
      ∀ e ∈ l, e.recurrence.isSome = true → timeSecond e.start_time = 0) ∧
    (∀ (cal : Calendar) (today : Date) (l : List Event),
      (∀ ev ∈ calValues cal, ev.start_time < 86400) →
      list_events_week cal today = some l →
      ∀ e ∈ l, e.recurrence.isSome = true → timeSecond e.start_time = 0) ∧
    (∀ (cal : Calendar) (today : Date) (l : List Event),
      (∀ ev ∈ calValues cal, ev.start_time < 86400) →
      list_events_month cal today = some l →
      ∀ e ∈ l, e.recurrence.isSome = true → timeSecond e.start_time = 0) ∧
    (∀ (cal : Calendar) (fromD untilD : Date) (l : List Event),
      (∀ ev ∈ calValues cal, ev.start_time < 86400) →
      list_events_between cal fromD untilD = some l →
      ∀ e ∈ l, e.recurrence.isSome = true → timeSecond e.start_time = 0) ∧
    ((list_events_between calSec ⟨2024, 1, 1⟩ ⟨2024, 1, 1⟩).map
        (fun l => l.map Event.start_time) = some [36000, 36000] ∧
      expand_recurrence ⟨Cadence.Secondly, 1, none⟩ ⟨2024, 1, 1⟩ 36030 =
        some [(⟨2024, 1, 1⟩, 36030), (⟨2024, 1, 1⟩, 36031)] ∧
      (36000 : Nat) ≠ 36031) := by
  refine ⟨?_, ?_, ?_, ?_, by decide⟩
  · intro cal today l hval h
    unfold list_events_today at h
    cases hs : seqOpt ((calValues cal).map (eventMatches (fun d => decide (d = today)))) with
    | none => rw [hs] at h; simp at h
    | some ls =>
      rw [hs] at h
      simp only [Option.map_some', Option.some.injEq] at h
      subst h
      intro e he hrec
      exact queryFlatten_second _ cal ls hval hs e ((mem_sortLe timeLe e _).mp he) hrec
  · intro cal today l hval h
    unfold list_events_week at h
    cases hs : seqOpt ((calValues cal).map
        (eventMatches (fun d => decide (isoWeekOf d = isoWeekOf today)))) with
    | none => rw [hs] at h; simp at h
    | some ls =>
      rw [hs] at h
      simp only [Option.map_some', Option.some.injEq] at h
      subst h
      intro e he hrec
      exact queryFlatten_second _ cal ls hval hs e ((mem_sortLe dateThenTimeLe e _).mp he) hrec
  · intro cal today l hval h
    unfold list_events_month at h
    cases hs : seqOpt ((calValues cal).map
        (eventMatches (fun d => decide (d.month = today.month ∧ d.year = today.year)))) with
    | none => rw [hs] at h; simp at h
    | some ls =>
      rw [hs] at h
      simp only [Option.map_some', Option.some.injEq] at h
      subst h
      intro e he hrec
      exact queryFlatten_second _ cal ls hval hs e ((mem_sortLe dateThenTimeLe e _).mp he) hrec
  · intro cal fromD untilD l hval h
    unfold list_events_between at h
    cases hs : seqOpt ((calValues cal).map
        (eventMatches (fun d => decide (d.toDays ≤ untilD.toDays ∧ d.toDays ≥ fromD.toDays)))) with
    | none => rw [hs] at h; simp at h
    | some ls =>
      rw [hs] at h
      simp only [Option.map_some', Option.some.injEq] at h
      subst h
      intro e he hrec
      exact queryFlatten_second _ cal ls hval hs e ((mem_sortLe dateThenTimeLe e _).mp he) hrec

/-- C10 witness: the today-query part applied to the concrete calendar
calSec on 2024-01-01: the projected copy of the Secondly event has a start
time with zero seconds. -/
theorem C10_projection_witness :
    timeSecond (projectEvent evSec (⟨2024, 1, 1⟩, 36030)).start_time = 0 :=
  C10_projection_zeroes_seconds.1 calSec ⟨2024, 1, 1⟩
    [projectEvent evSec (⟨2024, 1, 1⟩, 36030), projectEvent evSec (⟨2024, 1, 1⟩, 36030)]
    (by decide) (by decide)
    (projectEvent evSec (⟨2024, 1, 1⟩, 36030)) (by decide) (by decide)

/-- C8 witness: the interval characterisation applied to evPlain and
evPlain2, whose intervals do not intersect. -/
theorem C8_overlaps_witness :
    overlaps evPlain evPlain2 = some (decide
      (mkDT evPlain2.start_date evPlain2.start_time ≤
         mkDT evPlain.start_date evPlain.start_time + evPlain.duration ∧
       mkDT evPlain2.start_date evPlain2.start_time + evPlain2.duration ≥
         mkDT evPlain.start_date evPlain.start_time)) :=
  C8_overlaps_nonrecurring evPlain evPlain2 rfl rfl

end Cal
